import Mathlib

/-!
Verification of the drawlima-back session/room coordination core
(`src/server.js`). The repository is a sequence of iterations of the same
WebSocket whiteboard server; the definitions below embed the iteration that
carries the authenticated-session logic (the `handleMessage` with the
unauthenticated-message guard, reconnection takeover via `oldWs.terminate()`,
`handleRoomLogic`, `handleDrawingState`, `leaveCurrentRoom` with the
60-second empty-room deletion timer), plus the later iteration's
`handleDrawingState` (the variant whose `start_stroke` initialises
`points: [payload.point]` and keys `activeStrokes` by `payload.strokeId`),
embedded as `handleDrawingStateV3`.

JavaScript `Map`s are embedded as insertion-ordered association lists with
unique keys (`lookupA` / `setA` / `eraseA` mirror `Map.get` / `Map.set` /
`Map.delete`), JavaScript `Set`s as duplicate-free lists. Outbound
`ws.send` calls are collected as a list of emissions `(connection, message)`;
`readyState === 1` is modelled by membership in the `live` connection set,
and `terminate()` removes a connection from that set. Style fields of stroke
payloads (color, width) are opaque to the core and omitted.
-/

namespace Drawlima

/-- `Map.get`: first entry with the given key (keys are unique in states
reachable through the API, as in a JS `Map`). -/
def lookupA {κ α : Type} [DecidableEq κ] : List (κ × α) → κ → Option α
  | [], _ => none
  | e :: t, k => if e.1 = k then some e.2 else lookupA t k

/-- `Map.set`: overwrite in place if the key is present (preserving position,
as a JS `Map` does), otherwise append. -/
def setA {κ α : Type} [DecidableEq κ] : List (κ × α) → κ → α → List (κ × α)
  | [], k, v => [(k, v)]
  | e :: t, k, v => if e.1 = k then (k, v) :: t else e :: setA t k v

/-- `Map.delete`: remove the entry with the given key (on unique-key lists,
removing all matches coincides with removing the one entry). -/
def eraseA {κ α : Type} [DecidableEq κ] (l : List (κ × α)) (k : κ) : List (κ × α) :=
  l.filter (fun e => e.1 != k)

/-- `Set.add`: no-op if the element is present, else append. -/
def addSet (l : List String) (x : String) : List String :=
  if x ∈ l then l else l ++ [x]

/-- `Set.delete`. -/
def delSet (l : List String) (x : String) : List String :=
  l.filter (fun y => y != x)

structure Point where
  x : Int
  y : Int
deriving DecidableEq

structure Size where
  width : Int
  height : Int
deriving DecidableEq

/-- A stroke record as built by `handleDrawingState`: the spread of the client
payload plus the server-assigned `userId` (owner). The payload fields the
server ever reads back are `id`, `strokeId` and `points` (`id` may be absent,
hence `Option`; `points` is absent unless the client supplied it — the later
iteration's `start_stroke` always sets it). -/
structure Stroke where
  id : Option String
  strokeId : String
  userId : String
  points : Option (List Point)
deriving DecidableEq

/-- Inbound drawing payload: the fields of `start_stroke` / `draw_chunk` /
`end_stroke` / `delete_stroke` payloads that the server reads (style fields
are opaque and omitted). -/
structure DrawPayload where
  id : Option String
  strokeId : String
  point : Point
  points : Option (List Point)
deriving DecidableEq

/-- Inbound client messages (`{ type, payload }` envelopes). -/
inductive ClientMsg where
  | auth (token : Option String) (username : String)
  | create_room (name : String) (size : Size)
  | join_room (roomId : String)
  | start_stroke (p : DrawPayload)
  | draw_chunk (p : DrawPayload)
  | end_stroke (p : DrawPayload)
  | delete_stroke (p : DrawPayload)
  | cursor_move (x y : Int)
deriving DecidableEq

/-- One room summary as produced by `getWhiteboardList`. -/
structure RoomSummary where
  id : String
  name : String
  creator : String
  createdAt : String
  userCount : Nat
deriving DecidableEq

/-- Outbound messages. `relay m` is the raw inbound drawing message forwarded
verbatim to the other room members. -/
inductive Msg where
  | authenticated (userId : String) (whiteboards : List RoomSummary)
  | room_list_update (whiteboards : List RoomSummary)
  | joined_room (roomId name : String) (size : Size) (strokes : List Stroke)
      (activeStrokes : List Stroke) (users : List (String × String))
  | user_joined (id username : String)
  | user_left (userId : String)
  | relay (m : ClientMsg)
  | cursor_update (userId username : String) (x y : Int)
deriving DecidableEq

/-- An outbound send: target connection and message. -/
abbrev Emit := String × Msg

/-- A room: `{ id, name, size, creator, createdAt, clients, strokes,
activeStrokes }`. `strokes` is the completed-stroke log, `activeStrokes` the
in-progress table. `activeStrokes` keys are `Option String` because the
earlier iteration's `start_stroke` keys by `payload.id`, which a client may
omit (JS `Map` can key `undefined`); lookups by `payload.strokeId` use
`some strokeId`. -/
structure Room where
  id : String
  name : String
  size : Size
  creator : String
  createdAt : String
  clients : List String
  strokes : List Stroke
  activeStrokes : List (Option String × Stroke)
deriving DecidableEq

/-- One entry of the `users` map: `{ username, ws, currentRoomId }`. -/
structure UserData where
  username : String
  ws : String
  currentRoomId : Option String
deriving DecidableEq

/-- The whole server state. `users` and `whiteboards` are the two global maps;
`connUser` records the `ws.userId` property assignments; `live` is the set of
connections with `readyState === 1`; `pendingTimers` the scheduled (not yet
fired) 60-second room-deletion timers, one entry per `setTimeout` call. -/
structure ServerState where
  users : List (String × UserData)
  whiteboards : List (String × Room)
  connUser : List (String × String)
  live : List String
  pendingTimers : List String
deriving DecidableEq

def initState : ServerState := ⟨[], [], [], [], []⟩

/-- `getWhiteboardList()`: lobby summaries of all rooms. -/
def getWhiteboardList (s : ServerState) : List RoomSummary :=
  s.whiteboards.map (fun e =>
    ⟨e.2.id, e.2.name, e.2.creator, e.2.createdAt, e.2.clients.length⟩)

/-- `getUserListForRoom(room)`: id and username of each member. -/
def getUserListForRoom (s : ServerState) (room : Room) : List (String × String) :=
  room.clients.map (fun uid =>
    (uid, match lookupA s.users uid with
          | some ud => ud.username
          | none => "Anonymous"))

/-- `getUserByWs(ws)`: the authenticated user for a connection, from the
`ws.userId` property and the `users` map. -/
def getUserByWs (s : ServerState) (conn : String) : Option (String × UserData) :=
  match lookupA s.connUser conn with
  | none => none
  | some uid =>
    match lookupA s.users uid with
    | some ud => some (uid, ud)
    | none => none

/-- `broadcast(message)`: send to every user whose `ws.readyState === 1`. -/
def broadcast (s : ServerState) (m : Msg) : List Emit :=
  s.users.filterMap (fun e => if e.2.ws ∈ s.live then some (e.2.ws, m) else none)

/-- `broadcastToRoom(roomId, message, excludeUserId)`: send to every member of
the room other than the excluded one whose connection is live. -/
def broadcastToRoom (s : ServerState) (roomId : String) (m : Msg)
    (excludeUserId : Option String) : List Emit :=
  match lookupA s.whiteboards roomId with
  | none => []
  | some room =>
    room.clients.filterMap (fun cid =>
      if excludeUserId = some cid then none
      else
        match lookupA s.users cid with
        | some ud => if ud.ws ∈ s.live then some (ud.ws, m) else none
        | none => none)

/-- `leaveCurrentRoom(userId)`: remove the user from their current room,
discard their entries in `activeStrokes`, broadcast `user_left`, and if the
room became empty schedule a 60-second deletion timer. Always resets
`currentRoomId` to `null`. -/
def leaveCurrentRoom (s : ServerState) (userId : String) : ServerState × List Emit :=
  match lookupA s.users userId with
  | none => (s, [])
  | some ud =>
    match ud.currentRoomId with
    | none => (s, [])
    | some roomId =>
      match lookupA s.whiteboards roomId with
      | none =>
        let leftUser : UserData := { ud with currentRoomId := none }
        ({ s with users := setA s.users userId leftUser }, [])
      | some room =>
        let room' : Room :=
          { room with
            clients := delSet room.clients userId,
            activeStrokes := room.activeStrokes.filter (fun e => e.2.userId != userId) }
        let s1 : ServerState := { s with whiteboards := setA s.whiteboards roomId room' }
        let emits := broadcastToRoom s1 roomId (.user_left userId) none
        let s2 : ServerState :=
          if room'.clients.isEmpty then
            { s1 with pendingTimers := s1.pendingTimers ++ [roomId] }
          else s1
        let leftUser : UserData := { ud with currentRoomId := none }
        ({ s2 with users := setA s2.users userId leftUser }, emits)

/-- `handleDisconnect(userId)`: leave the current room, then delete the user
record. -/
def handleDisconnect (s : ServerState) (userId : String) : ServerState × List Emit :=
  match lookupA s.users userId with
  | none => (s, [])
  | some _ =>
    let r := leaveCurrentRoom s userId
    ({ r.1 with users := eraseA r.1.users userId }, r.2)

/-- The `ws.on('close')` handler: the socket is no longer live; if some user's
recorded `ws` is this connection, run `handleDisconnect` for that user. -/
def closeConn (s : ServerState) (conn : String) : ServerState × List Emit :=
  let s0 : ServerState := { s with live := delSet s.live conn }
  match s0.users.find? (fun e => e.2.ws == conn) with
  | some e => handleDisconnect s0 e.1
  | none => (s0, [])

/-- `delete_stroke` state mutation: `findIndex` of the first stroke whose `id`
matches, then `splice` it out only when its owner is the requester (written
as one recursion over the list, equivalent to findIndex-then-splice). -/
def removeStrokeIfOwner : List Stroke → String → String → List Stroke
  | [], _, _ => []
  | st :: rest, sid, uid =>
    if st.id = some sid then
      if st.userId = uid then rest else st :: rest
    else st :: removeStrokeIfOwner rest sid uid

/-- `handleDrawingState(user, type, payload)` — the iteration with the
ownership-checked `delete_stroke`. `start_stroke` stores
`{ ...payload, userId }` keyed by `newStroke.id` (the payload's `id` field);
`draw_chunk`/`end_stroke` look up by `payload.strokeId`. A `draw_chunk`
whose target has no `points` array throws in JS and is caught by the outer
handler before any mutation, so it leaves the state unchanged. -/
def handleDrawingState (s : ServerState) (userId roomId : String)
    (m : ClientMsg) : ServerState :=
  match lookupA s.whiteboards roomId with
  | none => s
  | some room =>
    match m with
    | .start_stroke p =>
      let newStroke : Stroke := ⟨p.id, p.strokeId, userId, p.points⟩
      let room' : Room :=
        { room with activeStrokes := setA room.activeStrokes newStroke.id newStroke }
      { s with whiteboards := setA s.whiteboards roomId room' }
    | .draw_chunk p =>
      match lookupA room.activeStrokes (some p.strokeId) with
      | none => s
      | some st =>
        match st.points with
        | none => s
        | some ps =>
          let st' : Stroke := { st with points := some (ps ++ [p.point]) }
          let room' : Room :=
            { room with activeStrokes := setA room.activeStrokes (some p.strokeId) st' }
          { s with whiteboards := setA s.whiteboards roomId room' }
    | .end_stroke p =>
      match lookupA room.activeStrokes (some p.strokeId) with
      | none => s
      | some st =>
        let room' : Room :=
          { room with
            strokes := room.strokes ++ [st],
            activeStrokes := eraseA room.activeStrokes (some p.strokeId) }
        { s with whiteboards := setA s.whiteboards roomId room' }
    | .delete_stroke p =>
      let room' : Room :=
        { room with strokes := removeStrokeIfOwner room.strokes p.strokeId userId }
      { s with whiteboards := setA s.whiteboards roomId room' }
    | _ => s

/-- `handleRoomLogic(user, type, payload)`: leave any previous room, create
a fresh room on `create_room` (broadcasting the lobby list, then auto-joining
it), resolve the target room, and perform the join with its unicast snapshot
and `user_joined` broadcast. `fresh` is the `uuidv4()` result, `now` the
`new Date().toISOString()` result. -/
def handleRoomLogic (fresh now : String) (s : ServerState) (userId : String)
    (m : ClientMsg) : ServerState × List Emit :=
  match lookupA s.users userId with
  | none => (s, [])
  | some actualUser =>
    let r1 :=
      if actualUser.currentRoomId.isSome then leaveCurrentRoom s userId else (s, [])
    let s1 := r1.1
    -- In JS `actualUser` is an alias into the map; the leave above only
    -- changed its `currentRoomId`, so `username` and `ws` read below are
    -- unchanged.
    let r2 : ServerState × List Emit × Option String :=
      match m with
      | .create_room name size =>
        let roomId := fresh
        let newWhiteboard : Room :=
          ⟨roomId, name, size, actualUser.username, now, [], [], []⟩
        let s2 : ServerState :=
          { s1 with whiteboards := setA s1.whiteboards roomId newWhiteboard }
        (s2, broadcast s2 (.room_list_update (getWhiteboardList s2)), some roomId)
      | .join_room roomId => (s1, [], some roomId)
      | _ => (s1, [], none)
    let s2 := r2.1
    match r2.2.2 with
    | none => (s2, r1.2 ++ r2.2.1)
    | some roomToJoinId =>
      match lookupA s2.whiteboards roomToJoinId with
      | none => (s2, r1.2 ++ r2.2.1)
      | some roomToJoin =>
        let room' : Room :=
          { roomToJoin with clients := addSet roomToJoin.clients userId }
        let s3 : ServerState :=
          { s2 with whiteboards := setA s2.whiteboards roomToJoinId room' }
        let joinedUser : UserData := { actualUser with currentRoomId := some roomToJoinId }
        let s4 : ServerState :=
          { s3 with users := setA s3.users userId joinedUser }
        let snapshot : Emit :=
          (actualUser.ws,
            .joined_room room'.id room'.name room'.size room'.strokes
              (room'.activeStrokes.map (fun e => e.2)) (getUserListForRoom s4 room'))
        let em4 :=
          broadcastToRoom s4 roomToJoinId
            (.user_joined userId actualUser.username) (some userId)
        (s4, r1.2 ++ r2.2.1 ++ [snapshot] ++ em4)

/-- `handleMessage(ws, message)`: the session coordinator. Any message other
than `auth` from a connection with no authenticated user is dropped. `auth`
resolves the token (empty or absent token mints a fresh id), terminates a
previous live connection holding the same user id, and rebinds the user
record to this connection, preserving `currentRoomId` on reconnection.
Drawing messages are relayed raw to the room (excluding the sender) before
`handleDrawingState` is applied. -/
def handleMessage (fresh now : String) (s : ServerState) (conn : String)
    (m : ClientMsg) : ServerState × List Emit :=
  match getUserByWs s conn, m with
  | _, .auth token username =>
    let userId :=
      match token with
      | none => fresh
      | some t => if t = "" then fresh else t
    let isReconnecting := (lookupA s.users userId).isSome
    let s1 : ServerState :=
      match lookupA s.users userId with
      | some old =>
        if old.ws ≠ conn ∧ old.ws ∈ s.live then
          { s with live := delSet s.live old.ws }
        else s
      | none => s
    let prevRoom :=
      match lookupA s.users userId with
      | some old => old.currentRoomId
      | none => none
    let newRecord : UserData :=
      ⟨username, conn, if isReconnecting then prevRoom else none⟩
    let s2 : ServerState :=
      { s1 with
        users := setA s1.users userId newRecord,
        connUser := setA s1.connUser conn userId }
    (s2, [(conn, .authenticated userId (getWhiteboardList s2))])
  | some u, .create_room _ _ => handleRoomLogic fresh now s u.1 m
  | some u, .join_room _ => handleRoomLogic fresh now s u.1 m
  | some u, .start_stroke _ =>
    match u.2.currentRoomId with
    | none => (s, [])
    | some rid =>
      (handleDrawingState s u.1 rid m, broadcastToRoom s rid (.relay m) (some u.1))
  | some u, .draw_chunk _ =>
    match u.2.currentRoomId with
    | none => (s, [])
    | some rid =>
      (handleDrawingState s u.1 rid m, broadcastToRoom s rid (.relay m) (some u.1))
  | some u, .end_stroke _ =>
    match u.2.currentRoomId with
    | none => (s, [])
    | some rid =>
      (handleDrawingState s u.1 rid m, broadcastToRoom s rid (.relay m) (some u.1))
  | some u, .delete_stroke _ =>
    match u.2.currentRoomId with
    | none => (s, [])
    | some rid =>
      (handleDrawingState s u.1 rid m, broadcastToRoom s rid (.relay m) (some u.1))
  | some u, .cursor_move x y =>
    match u.2.currentRoomId with
    | none => (s, [])
    | some rid =>
      (s, broadcastToRoom s rid (.cursor_update u.1 u.2.username x y) (some u.1))
  | none, _ => (s, [])

/-- The 60-second deletion timer callback: consume one pending timer for the
room; if the room still exists and is still empty, delete it and republish
the lobby list. -/
def fireTimer (s : ServerState) (roomId : String) : ServerState × List Emit :=
  if roomId ∈ s.pendingTimers then
    let s0 : ServerState := { s with pendingTimers := s.pendingTimers.erase roomId }
    match lookupA s0.whiteboards roomId with
    | some room =>
      if room.clients.isEmpty then
        let s1 : ServerState := { s0 with whiteboards := eraseA s0.whiteboards roomId }
        (s1, broadcast s1 (.room_list_update (getWhiteboardList s1)))
      else (s0, [])
    | none => (s0, [])
  else (s, [])

/-- Transport-level events: a connection opening, an inbound message (with the
`uuidv4()` and timestamp the handler would draw), a timer firing, a socket
closing. -/
inductive Event where
  | connect (conn : String)
  | recv (fresh now conn : String) (m : ClientMsg)
  | timer (roomId : String)
  | close (conn : String)

def stepEvent (s : ServerState) : Event → ServerState × List Emit
  | .connect conn => ({ s with live := addSet s.live conn }, [])
  | .recv fresh now conn m => handleMessage fresh now s conn m
  | .timer roomId => fireTimer s roomId
  | .close conn => closeConn s conn

/-- Run a sequence of events from a state, accumulating all emissions. -/
def run (s : ServerState) : List Event → ServerState × List Emit
  | [] => (s, [])
  | e :: rest =>
    let r := stepEvent s e
    let r' := run r.1 rest
    (r'.1, r.2 ++ r'.2)

/-- The later iteration's `handleDrawingState` (the file's last version):
`start_stroke` builds `{ ...payload, userId, points: [payload.point] }` and
keys `activeStrokes` by `payload.strokeId`; `draw_chunk` and `end_stroke` are
as before; `delete_stroke` filters by `id` with no ownership check. -/
def handleDrawingStateV3 (s : ServerState) (userId roomId : String)
    (m : ClientMsg) : ServerState :=
  match lookupA s.whiteboards roomId with
  | none => s
  | some room =>
    match m with
    | .start_stroke p =>
      let newStroke : Stroke := ⟨p.id, p.strokeId, userId, some [p.point]⟩
      let room' : Room :=
        { room with activeStrokes := setA room.activeStrokes (some p.strokeId) newStroke }
      { s with whiteboards := setA s.whiteboards roomId room' }
    | .draw_chunk p =>
      match lookupA room.activeStrokes (some p.strokeId) with
      | none => s
      | some st =>
        match st.points with
        | none => s
        | some ps =>
          let st' : Stroke := { st with points := some (ps ++ [p.point]) }
          let room' : Room :=
            { room with activeStrokes := setA room.activeStrokes (some p.strokeId) st' }
          { s with whiteboards := setA s.whiteboards roomId room' }
    | .end_stroke p =>
      match lookupA room.activeStrokes (some p.strokeId) with
      | none => s
      | some st =>
        let room' : Room :=
          { room with
            strokes := room.strokes ++ [st],
            activeStrokes := eraseA room.activeStrokes (some p.strokeId) }
        { s with whiteboards := setA s.whiteboards roomId room' }
    | .delete_stroke p =>
      let room' : Room :=
        { room with strokes := room.strokes.filter (fun st => st.id != some p.strokeId) }
      { s with whiteboards := setA s.whiteboards roomId room' }
    | _ => s


theorem lookupA_setA_self {κ α : Type} [DecidableEq κ] (l : List (κ × α)) (k : κ) (v : α) :
    lookupA (setA l k v) k = some v := by
  induction l with
  | nil => simp [setA, lookupA]
  | cons e t ih =>
    by_cases h : e.1 = k
    · simp [setA, h, lookupA]
    · simp [setA, h, lookupA, ih]

theorem lookupA_setA_ne {κ α : Type} [DecidableEq κ] (l : List (κ × α)) (k k' : κ) (v : α)
    (h : k' ≠ k) : lookupA (setA l k v) k' = lookupA l k' := by
  induction l with
  | nil => simp [setA, lookupA, Ne.symm h]
  | cons e t ih =>
    by_cases he : e.1 = k
    · have hek' : e.1 ≠ k' := by rw [he]; exact Ne.symm h
      simp [setA, he, lookupA, Ne.symm h, hek']
    · by_cases he' : e.1 = k'
      · simp [setA, he, lookupA, he', h]
      · simp [setA, he, lookupA, he', ih]

theorem setA_of_lookup_none {κ α : Type} [DecidableEq κ] (l : List (κ × α)) (k : κ) (v : α)
    (h : lookupA l k = none) : setA l k v = l ++ [(k, v)] := by
  induction l with
  | nil => simp [setA]
  | cons e t ih =>
    simp only [lookupA] at h
    by_cases he : e.1 = k
    · rw [if_pos he] at h; exact absurd h (by simp)
    · rw [if_neg he] at h
      simp [setA, he, ih h]

theorem setA_of_lookup_some {κ α : Type} [DecidableEq κ] (l : List (κ × α)) (k : κ) (v : α)
    (h : lookupA l k = some v) : setA l k v = l := by
  induction l with
  | nil => simp [lookupA] at h
  | cons e t ih =>
    obtain ⟨k0, v0⟩ := e
    simp only [lookupA] at h
    by_cases he : k0 = k
    · rw [if_pos he] at h
      simp only [Option.some.injEq] at h
      simp [setA, he, ← h]
    · rw [if_neg he] at h
      simp [setA, he, ih h]

theorem lookupA_eraseA_self {κ α : Type} [DecidableEq κ] (l : List (κ × α)) (k : κ) :
    lookupA (eraseA l k) k = none := by
  induction l with
  | nil => simp [eraseA, lookupA]
  | cons e t ih =>
    by_cases he : e.1 = k
    · simpa [eraseA, List.filter_cons, he] using ih
    · simpa [eraseA, List.filter_cons, he, lookupA] using ih

theorem mem_broadcast {s : ServerState} {m : Msg} {e : Emit}
    (he : e ∈ broadcast s m) : e.2 = m ∧ e.1 ∈ s.live := by
  simp only [broadcast, List.mem_filterMap] at he
  obtain ⟨a, _, hfa⟩ := he
  by_cases hl : a.2.ws ∈ s.live
  · rw [if_pos hl] at hfa
    cases hfa
    exact ⟨rfl, hl⟩
  · rw [if_neg hl] at hfa
    cases hfa

theorem mem_broadcastToRoom {s : ServerState} {roomId : String} {m : Msg}
    {ex : Option String} {e : Emit} (he : e ∈ broadcastToRoom s roomId m ex) :
    e.2 = m ∧ e.1 ∈ s.live := by
  cases hW : lookupA s.whiteboards roomId with
  | none => simp [broadcastToRoom, hW] at he
  | some room =>
    simp only [broadcastToRoom, hW, List.mem_filterMap] at he
    obtain ⟨cid, _, hf⟩ := he
    by_cases hex : ex = some cid
    · rw [if_pos hex] at hf; cases hf
    · rw [if_neg hex] at hf
      split at hf
      · split at hf
        · cases hf
          exact ⟨rfl, by assumption⟩
        · cases hf
      · cases hf

theorem removeStrokeIfOwner_eq_self (l : List Stroke) (sid uid : String)
    (h : ∀ st ∈ l, st.id = some sid → st.userId ≠ uid) :
    removeStrokeIfOwner l sid uid = l := by
  induction l with
  | nil => rfl
  | cons st rest ih =>
    by_cases h1 : st.id = some sid
    · have h2 : st.userId ≠ uid := h st (List.mem_cons_self st rest) h1
      simp [removeStrokeIfOwner, h1, h2]
    · have ih' := ih (fun st' hst' => h st' (List.mem_cons_of_mem st hst'))
      simp [removeStrokeIfOwner, h1, ih']

/-- C8: any message other than `auth`, received on a connection that has not
completed a successful authenticate (so `getUserByWs` resolves no user), is
dropped: the state is unchanged and nothing is sent to any connection. -/
theorem c8_unauthenticated_dropped (fresh now conn : String) (s : ServerState)
    (m : ClientMsg) (hu : getUserByWs s conn = none)
    (hm : ∀ token username, m ≠ ClientMsg.auth token username) :
    handleMessage fresh now s conn m = (s, []) := by
  cases m with
  | auth t u => exact absurd rfl (hm t u)
  | create_room a b => simp [handleMessage, hu]
  | join_room a => simp [handleMessage, hu]
  | start_stroke p => simp [handleMessage, hu]
  | draw_chunk p => simp [handleMessage, hu]
  | end_stroke p => simp [handleMessage, hu]
  | delete_stroke p => simp [handleMessage, hu]
  | cursor_move x y => simp [handleMessage, hu]

theorem c8_unauthenticated_dropped_witness :
    getUserByWs initState "c" = none ∧
    (∀ token username, ClientMsg.join_room "r" ≠ ClientMsg.auth token username) ∧
    handleMessage "f" "t" initState "c" (.join_room "r") = (initState, []) := by
  refine ⟨by decide, ?_, ?_⟩
  · intro t u h
    cases h
  · exact c8_unauthenticated_dropped "f" "t" "c" initState (.join_room "r") (by decide)
      (by intro t u h; cases h)

/-- C9: a user who disconnects while holding active strokes in their room has
all of them removed from the room's `activeStrokes`; none is appended to the
completed `strokes`, and every message emitted by the disconnect is the
`user_left` notification (no `end_stroke`/completion event). -/
theorem c9_disconnect_discards (s : ServerState) (uid rid : String) (ud : UserData)
    (room : Room) (hu : lookupA s.users uid = some ud)
    (hr : ud.currentRoomId = some rid)
    (hw : lookupA s.whiteboards rid = some room) :
    (∃ room', lookupA (handleDisconnect s uid).1.whiteboards rid = some room' ∧
        room'.activeStrokes = room.activeStrokes.filter (fun e => e.2.userId != uid) ∧
        room'.strokes = room.strokes) ∧
    ∀ e ∈ (handleDisconnect s uid).2, e.2 = Msg.user_left uid := by
  simp only [handleDisconnect, leaveCurrentRoom, hu, hr, hw]
  constructor
  · split
    · exact ⟨_, lookupA_setA_self _ _ _, rfl, rfl⟩
    · exact ⟨_, lookupA_setA_self _ _ _, rfl, rfl⟩
  · intro e he
    exact (mem_broadcastToRoom he).1

/-- Concrete room for the C9 witness: one member owning two active strokes. -/
def wroom9 : Room :=
  ⟨"R", "demo", ⟨800, 600⟩, "alice", "t", ["A"], [],
   [(some "s1", ⟨some "s1", "s1", "A", some [⟨0, 0⟩]⟩),
    (some "s2", ⟨some "s2", "s2", "A", some [⟨1, 1⟩]⟩)]⟩

def wstate9 : ServerState :=
  ⟨[("A", ⟨"alice", "ca", some "R"⟩)], [("R", wroom9)], [("ca", "A")], ["ca"], []⟩

theorem c9_disconnect_discards_witness :
    lookupA wstate9.users "A" = some ⟨"alice", "ca", some "R"⟩ ∧
    (UserData.mk "alice" "ca" (some "R")).currentRoomId = some "R" ∧
    lookupA wstate9.whiteboards "R" = some wroom9 ∧
    ((∃ room', lookupA (handleDisconnect wstate9 "A").1.whiteboards "R" = some room' ∧
        room'.activeStrokes = wroom9.activeStrokes.filter (fun e => e.2.userId != "A") ∧
        room'.strokes = wroom9.strokes) ∧
     ∀ e ∈ (handleDisconnect wstate9 "A").2, e.2 = Msg.user_left "A") :=
  ⟨rfl, rfl, rfl,
   c9_disconnect_discards wstate9 "A" "R" ⟨"alice", "ca", some "R"⟩ wroom9 rfl rfl rfl⟩

/-- C10: there is no ownership check on `draw_chunk` or `end_stroke`: for a
room member `uid` and an active stroke `st` of the room owned by someone
else, a `draw_chunk` from `uid` carrying the stroke's id appends its point to
the stroke, and an `end_stroke` from `uid` moves the stroke (with its
original `userId`) to the tail of the completed `strokes`. -/
theorem c10_no_ownership_check (fresh now conn uid rid sid : String)
    (s : ServerState) (ud : UserData) (room : Room) (st : Stroke)
    (ps : List Point) (pid qid : Option String) (pt qt : Point)
    (ppts qpts : Option (List Point))
    (hga : getUserByWs s conn = some (uid, ud)) (hrid : ud.currentRoomId = some rid)
    (hw : lookupA s.whiteboards rid = some room)
    (hst : lookupA room.activeStrokes (some sid) = some st)
    (hown : st.userId ≠ uid) (hpts : st.points = some ps) :
    (∃ room',
        lookupA (handleMessage fresh now s conn
            (.draw_chunk ⟨pid, sid, pt, ppts⟩)).1.whiteboards rid = some room' ∧
        lookupA room'.activeStrokes (some sid) =
          some { st with points := some (ps ++ [pt]) } ∧
        room'.strokes = room.strokes) ∧
    (∃ room'',
        lookupA (handleMessage fresh now s conn
            (.end_stroke ⟨qid, sid, qt, qpts⟩)).1.whiteboards rid = some room'' ∧
        room''.strokes = room.strokes ++ [st] ∧
        lookupA room''.activeStrokes (some sid) = none) := by
  constructor
  · simp only [handleMessage, hga, hrid, handleDrawingState, hw, hst, hpts]
    exact ⟨_, lookupA_setA_self _ _ _, lookupA_setA_self _ _ _, rfl⟩
  · simp only [handleMessage, hga, hrid, handleDrawingState, hw, hst]
    exact ⟨_, lookupA_setA_self _ _ _, rfl, lookupA_eraseA_self _ _⟩

/-- Concrete state for the C10 witness: B in the room with A, A owning the
active stroke "s1"; B sends the `draw_chunk` and `end_stroke`. -/
def wroom10 : Room :=
  ⟨"R", "demo", ⟨800, 600⟩, "alice", "t", ["A", "B"], [],
   [(some "s1", ⟨some "s1", "s1", "A", some [⟨0, 0⟩]⟩)]⟩

def wstate10 : ServerState :=
  ⟨[("A", ⟨"alice", "ca", some "R"⟩), ("B", ⟨"bob", "cb", some "R"⟩)],
   [("R", wroom10)], [("ca", "A"), ("cb", "B")], ["ca", "cb"], []⟩

theorem c10_no_ownership_check_witness :
    getUserByWs wstate10 "cb" = some ("B", ⟨"bob", "cb", some "R"⟩) ∧
    (UserData.mk "bob" "cb" (some "R")).currentRoomId = some "R" ∧
    lookupA wstate10.whiteboards "R" = some wroom10 ∧
    lookupA wroom10.activeStrokes (some "s1") =
      some ⟨some "s1", "s1", "A", some [⟨0, 0⟩]⟩ ∧
    (Stroke.mk (some "s1") "s1" "A" (some [⟨0, 0⟩])).userId ≠ "B" ∧
    (Stroke.mk (some "s1") "s1" "A" (some [⟨0, 0⟩])).points = some [⟨0, 0⟩] ∧
    ((∃ room',
        lookupA (handleMessage "f" "t" wstate10 "cb"
            (.draw_chunk ⟨none, "s1", ⟨2, 2⟩, none⟩)).1.whiteboards "R" = some room' ∧
        lookupA room'.activeStrokes (some "s1") =
          some { Stroke.mk (some "s1") "s1" "A" (some [⟨0, 0⟩]) with
                 points := some ([⟨0, 0⟩] ++ [⟨2, 2⟩]) } ∧
        room'.strokes = wroom10.strokes) ∧
     (∃ room'',
        lookupA (handleMessage "f" "t" wstate10 "cb"
            (.end_stroke ⟨none, "s1", ⟨0, 0⟩, none⟩)).1.whiteboards "R" = some room'' ∧
        room''.strokes = wroom10.strokes ++ [⟨some "s1", "s1", "A", some [⟨0, 0⟩]⟩] ∧
        lookupA room''.activeStrokes (some "s1") = none)) :=
  ⟨rfl, rfl, rfl, rfl, by decide, rfl,
   c10_no_ownership_check "f" "t" "cb" "B" "R" "s1" wstate10
     ⟨"bob", "cb", some "R"⟩ wroom10 ⟨some "s1", "s1", "A", some [⟨0, 0⟩]⟩
     [⟨0, 0⟩] none none ⟨2, 2⟩ ⟨0, 0⟩ none none
     rfl rfl rfl rfl (by decide) rfl⟩

/-- Concrete state for C1: A (connection "ca") owns completed stroke "s1" in
room "R"; B (connection "cb") is the other member. -/
def wroom1 : Room :=
  ⟨"R", "demo", ⟨800, 600⟩, "alice", "t", ["A", "B"],
   [⟨some "s1", "s1", "A", some [⟨0, 0⟩]⟩], []⟩

def wstate1 : ServerState :=
  ⟨[("A", ⟨"alice", "ca", some "R"⟩), ("B", ⟨"bob", "cb", some "R"⟩)],
   [("R", wroom1)], [("ca", "A"), ("cb", "B")], ["ca", "cb"], []⟩

/-- C1 counterexample: B's `delete_stroke` for A's stroke leaves the completed
strokes unchanged, but it does emit a broadcast — the raw `delete_stroke`
message is relayed to A's connection — contradicting the claim that nothing
is sent to any member of the room. -/
theorem c1_delete_stroke_counterexample :
    (handleMessage "f" "t" wstate1 "cb"
        (.delete_stroke ⟨none, "s1", ⟨0, 0⟩, none⟩)).2 =
      [("ca", Msg.relay (.delete_stroke ⟨none, "s1", ⟨0, 0⟩, none⟩))] ∧
    (handleMessage "f" "t" wstate1 "cb"
        (.delete_stroke ⟨none, "s1", ⟨0, 0⟩, none⟩)).1 = wstate1 := by
  constructor
  · rfl
  · decide

/-- C1 (amended): `delete_stroke` from a user who owns no completed stroke
with the given id leaves the whole state (in particular `completedStrokes`)
unchanged, but the raw `delete_stroke` message is still relayed to the other
room members: every emission of the step is that relay. Only the state
mutation is ownership-gated; the broadcast is not. -/
theorem c1_delete_stroke_nonowner (fresh now conn uid rid sid : String)
    (s : ServerState) (ud : UserData) (room : Room) (pid : Option String)
    (pt : Point) (ppts : Option (List Point))
    (hga : getUserByWs s conn = some (uid, ud)) (hrid : ud.currentRoomId = some rid)
    (hw : lookupA s.whiteboards rid = some room)
    (hown : ∀ st ∈ room.strokes, st.id = some sid → st.userId ≠ uid) :
    (handleMessage fresh now s conn (.delete_stroke ⟨pid, sid, pt, ppts⟩)).1 = s ∧
    ∀ e ∈ (handleMessage fresh now s conn (.delete_stroke ⟨pid, sid, pt, ppts⟩)).2,
      e.2 = Msg.relay (.delete_stroke ⟨pid, sid, pt, ppts⟩) := by
  constructor
  · simp only [handleMessage, hga, hrid, handleDrawingState, hw,
      removeStrokeIfOwner_eq_self room.strokes sid uid hown]
    rw [setA_of_lookup_some s.whiteboards rid room hw]
  · intro e he
    simp only [handleMessage, hga, hrid] at he
    exact (mem_broadcastToRoom he).1

theorem c1_delete_stroke_nonowner_witness :
    getUserByWs wstate1 "cb" = some ("B", ⟨"bob", "cb", some "R"⟩) ∧
    (UserData.mk "bob" "cb" (some "R")).currentRoomId = some "R" ∧
    lookupA wstate1.whiteboards "R" = some wroom1 ∧
    (∀ st ∈ wroom1.strokes, st.id = some "s1" → st.userId ≠ "B") ∧
    ((handleMessage "f" "t" wstate1 "cb"
        (.delete_stroke ⟨none, "s1", ⟨0, 0⟩, none⟩)).1 = wstate1 ∧
     ∀ e ∈ (handleMessage "f" "t" wstate1 "cb"
        (.delete_stroke ⟨none, "s1", ⟨0, 0⟩, none⟩)).2,
       e.2 = Msg.relay (.delete_stroke ⟨none, "s1", ⟨0, 0⟩, none⟩)) :=
  ⟨rfl, rfl, rfl, by decide,
   c1_delete_stroke_nonowner "f" "t" "cb" "B" "R" "s1" wstate1
     ⟨"bob", "cb", some "R"⟩ wroom1 none ⟨0, 0⟩ none rfl rfl rfl (by decide)⟩

theorem not_mem_delSet_self (l : List String) (x : String) : x ∉ delSet l x := by
  simp [delSet, List.mem_filter]

/-- C3: re-authentication with a known token reuses the user record,
preserving `currentRoomId`, rebinds it to the new connection, and the
previous connection is no longer live after the takeover (it is terminated
if it was live), so no broadcast of the resulting state targets it. -/
theorem c3_reconnect_takeover (fresh now conn tok name : String) (s : ServerState)
    (ud : UserData) (hknown : lookupA s.users tok = some ud)
    (htok : tok ≠ "") (hne : ud.ws ≠ conn) :
    lookupA (handleMessage fresh now s conn (.auth (some tok) name)).1.users tok =
      some ⟨name, conn, ud.currentRoomId⟩ ∧
    ud.ws ∉ (handleMessage fresh now s conn (.auth (some tok) name)).1.live ∧
    (∀ (m : Msg) (e : Emit),
        e ∈ broadcast (handleMessage fresh now s conn (.auth (some tok) name)).1 m →
        e.1 ≠ ud.ws) ∧
    (∀ (rid : String) (m : Msg) (ex : Option String) (e : Emit),
        e ∈ broadcastToRoom
            (handleMessage fresh now s conn (.auth (some tok) name)).1 rid m ex →
        e.1 ≠ ud.ws) := by
  have hws : ∀ s' : ServerState, ud.ws ∉ s'.live →
      (∀ (m : Msg) (e : Emit), e ∈ broadcast s' m → e.1 ≠ ud.ws) ∧
      (∀ (rid : String) (m : Msg) (ex : Option String) (e : Emit),
          e ∈ broadcastToRoom s' rid m ex → e.1 ≠ ud.ws) := by
    intro s' hnl
    constructor
    · intro m e he h1
      exact hnl (h1 ▸ (mem_broadcast he).2)
    · intro rid m ex e he h1
      exact hnl (h1 ▸ (mem_broadcastToRoom he).2)
  by_cases hlive : ud.ws ∈ s.live
  · have hstate : (handleMessage fresh now s conn (.auth (some tok) name)).1 =
        { s with live := delSet s.live ud.ws,
                 users := setA s.users tok ⟨name, conn, ud.currentRoomId⟩,
                 connUser := setA s.connUser conn tok } := by
      cases h : getUserByWs s conn <;>
        simp [handleMessage, h, hknown, htok, hne, hlive]
    have h2 : ud.ws ∉ (handleMessage fresh now s conn (.auth (some tok) name)).1.live := by
      rw [hstate]
      exact not_mem_delSet_self s.live ud.ws
    refine ⟨?_, h2, (hws _ h2).1, (hws _ h2).2⟩
    rw [hstate]
    exact lookupA_setA_self s.users tok ⟨name, conn, ud.currentRoomId⟩
  · have hstate : (handleMessage fresh now s conn (.auth (some tok) name)).1 =
        { s with users := setA s.users tok ⟨name, conn, ud.currentRoomId⟩,
                 connUser := setA s.connUser conn tok } := by
      cases h : getUserByWs s conn <;>
        simp [handleMessage, h, hknown, htok, hne, hlive]
    have h2 : ud.ws ∉ (handleMessage fresh now s conn (.auth (some tok) name)).1.live := by
      rw [hstate]
      exact hlive
    refine ⟨?_, h2, (hws _ h2).1, (hws _ h2).2⟩
    rw [hstate]
    exact lookupA_setA_self s.users tok ⟨name, conn, ud.currentRoomId⟩

/-- Concrete state for the C3 witness: user "A" in room "R" with live
connection "old"; a new live connection "new" re-authenticates with token
"A". -/
def wstate3 : ServerState :=
  ⟨[("A", ⟨"alice", "old", some "R"⟩)], [], [("old", "A")], ["old", "new"], []⟩

theorem c3_reconnect_takeover_witness :
    lookupA wstate3.users "A" = some ⟨"alice", "old", some "R"⟩ ∧
    "A" ≠ "" ∧
    (UserData.mk "alice" "old" (some "R")).ws ≠ "new" ∧
    (lookupA (handleMessage "f" "t" wstate3 "new" (.auth (some "A") "al")).1.users "A" =
      some ⟨"al", "new", (UserData.mk "alice" "old" (some "R")).currentRoomId⟩ ∧
    (UserData.mk "alice" "old" (some "R")).ws ∉
      (handleMessage "f" "t" wstate3 "new" (.auth (some "A") "al")).1.live ∧
    (∀ (m : Msg) (e : Emit),
        e ∈ broadcast (handleMessage "f" "t" wstate3 "new" (.auth (some "A") "al")).1 m →
        e.1 ≠ (UserData.mk "alice" "old" (some "R")).ws) ∧
    (∀ (rid : String) (m : Msg) (ex : Option String) (e : Emit),
        e ∈ broadcastToRoom
            (handleMessage "f" "t" wstate3 "new" (.auth (some "A") "al")).1 rid m ex →
        e.1 ≠ (UserData.mk "alice" "old" (some "R")).ws)) :=
  ⟨rfl, by decide, by decide,
   c3_reconnect_takeover "f" "t" "new" "A" "al" wstate3
     ⟨"alice", "old", some "R"⟩ rfl (by decide) (by decide)⟩

theorem getUserByWs_users {s : ServerState} {conn uid : String} {ud : UserData}
    (h : getUserByWs s conn = some (uid, ud)) : lookupA s.users uid = some ud := by
  cases hc : lookupA s.connUser conn with
  | none => simp [getUserByWs, hc] at h
  | some u0 =>
    cases hu : lookupA s.users u0 with
    | none => simp [getUserByWs, hc, hu] at h
    | some ud0 =>
      simp only [getUserByWs, hc, hu, Option.some.injEq, Prod.mk.injEq] at h
      obtain ⟨h1, h2⟩ := h
      rw [← h1, ← h2]
      exact hu

/-- The room as `leaveCurrentRoom` rewrites it: the leaver removed from the
member set and their active strokes discarded. -/
def roomWithout (room : Room) (uid : String) : Room :=
  { room with
    clients := delSet room.clients uid,
    activeStrokes := room.activeStrokes.filter (fun e => e.2.userId != uid) }

/-- Characterization of `leaveCurrentRoom` for a user who is in an existing
room. -/
theorem leaveCurrentRoom_spec (s : ServerState) (uid rid : String) (ud : UserData)
    (room : Room) (hu : lookupA s.users uid = some ud) (hr : ud.currentRoomId = some rid)
    (hw : lookupA s.whiteboards rid = some room) :
    leaveCurrentRoom s uid =
      (⟨setA s.users uid { ud with currentRoomId := none },
        setA s.whiteboards rid (roomWithout room uid),
        s.connUser, s.live,
        if (delSet room.clients uid).isEmpty then s.pendingTimers ++ [rid]
        else s.pendingTimers⟩,
       broadcastToRoom { s with whiteboards := setA s.whiteboards rid (roomWithout room uid) }
         rid (.user_left uid) none) := by
  simp only [leaveCurrentRoom, hu, hr, hw, roomWithout]
  by_cases hE : (delSet room.clients uid).isEmpty <;> simp [hE]

/-- C7 (amended): `join_room` naming a room id that does not exist is not a
no-op: the user first fully leaves their current room (membership removal,
active-stroke discard, `user_left` broadcast) and then no join happens, so
the user ends with no current room; the only messages emitted are the
`user_left` notification to the old room (no error is surfaced). -/
theorem c7_join_missing_leaves (fresh now conn uid rid tgt : String)
    (s : ServerState) (ud : UserData) (room : Room)
    (hga : getUserByWs s conn = some (uid, ud)) (hrid : ud.currentRoomId = some rid)
    (hw : lookupA s.whiteboards rid = some room)
    (htgt : lookupA s.whiteboards tgt = none) :
    lookupA (handleMessage fresh now s conn (.join_room tgt)).1.users uid =
      some { ud with currentRoomId := none } ∧
    (∃ room', lookupA (handleMessage fresh now s conn (.join_room tgt)).1.whiteboards rid
        = some room' ∧ room'.clients = delSet room.clients uid) ∧
    ∀ e ∈ (handleMessage fresh now s conn (.join_room tgt)).2,
      e.2 = Msg.user_left uid := by
  have husers := getUserByWs_users hga
  have hne : tgt ≠ rid := by
    intro heq
    rw [heq, hw] at htgt
    cases htgt
  simp only [handleMessage, hga, handleRoomLogic, husers, hrid, Option.isSome_some,
    if_true, leaveCurrentRoom_spec s uid rid ud room husers hrid hw,
    lookupA_setA_ne _ _ _ _ hne, htgt]
  refine ⟨lookupA_setA_self _ _ _, ⟨_, lookupA_setA_self _ _ _, rfl⟩, ?_⟩
  intro e he
  simp only [List.append_nil] at he
  exact (mem_broadcastToRoom he).1

/-- Trace: a client connects, authenticates as "alice" (minted id "A"),
creates room "R" (auto-joined). -/
def trace7pre : List Event :=
  [.connect "c1", .recv "A" "t0" "c1" (.auth none "alice"),
   .recv "R" "t1" "c1" (.create_room "demo" ⟨800, 600⟩)]

def state7pre : ServerState := (run initState trace7pre).1

/-- The room "R" as it stands after `trace7pre`. -/
def wroom7 : Room := ⟨"R", "demo", ⟨800, 600⟩, "alice", "t1", ["A"], [], []⟩

/-- C7 counterexample: with user "A" a member of room "R", a `join_room` for
the nonexistent id "zzz" is not a local no-op: afterwards "A" has
`currentRoomId = none` (not "R") and is no longer a member of "R". -/
theorem c7_join_missing_counterexample :
    lookupA state7pre.users "A" = some ⟨"alice", "c1", some "R"⟩ ∧
    lookupA state7pre.whiteboards "zzz" = none ∧
    lookupA (handleMessage "x" "t2" state7pre "c1" (.join_room "zzz")).1.users "A" =
      some ⟨"alice", "c1", none⟩ ∧
    (lookupA (handleMessage "x" "t2" state7pre "c1"
        (.join_room "zzz")).1.whiteboards "R").map Room.clients = some [] :=
  ⟨rfl, rfl, rfl, rfl⟩

theorem c7_join_missing_leaves_witness :
    getUserByWs state7pre "c1" = some ("A", ⟨"alice", "c1", some "R"⟩) ∧
    (UserData.mk "alice" "c1" (some "R")).currentRoomId = some "R" ∧
    lookupA state7pre.whiteboards "R" = some wroom7 ∧
    lookupA state7pre.whiteboards "zzz" = none ∧
    (lookupA (handleMessage "x" "t2" state7pre "c1" (.join_room "zzz")).1.users "A" =
      some { UserData.mk "alice" "c1" (some "R") with currentRoomId := none } ∧
    (∃ room', lookupA (handleMessage "x" "t2" state7pre "c1"
        (.join_room "zzz")).1.whiteboards "R" = some room' ∧
        room'.clients = delSet wroom7.clients "A") ∧
    ∀ e ∈ (handleMessage "x" "t2" state7pre "c1" (.join_room "zzz")).2,
      e.2 = Msg.user_left "A") :=
  ⟨rfl, rfl, rfl, rfl,
   c7_join_missing_leaves "x" "t2" "c1" "A" "R" "zzz" state7pre
     ⟨"alice", "c1", some "R"⟩ wroom7 rfl rfl rfl rfl⟩

/-- Trace extending `trace7pre`: "A" starts stroke "s1", ends it (moving it
to the completed log), then starts a stroke with the same id again. -/
def trace5 : List Event :=
  trace7pre ++
  [.recv "f1" "t2" "c1" (.start_stroke ⟨some "s1", "s1", ⟨0, 0⟩, some [⟨0, 0⟩]⟩),
   .recv "f2" "t3" "c1" (.end_stroke ⟨none, "s1", ⟨0, 0⟩, none⟩),
   .recv "f3" "t4" "c1" (.start_stroke ⟨some "s1", "s1", ⟨1, 1⟩, some [⟨1, 1⟩]⟩)]

/-- C5 counterexample: the duplicate `start_stroke` is not ignored, and in
the reachable state after `trace5` the stroke id "s1" is present in the
room's `activeStrokes` and in its completed `strokes` simultaneously,
violating the claimed invariant. -/
theorem c5_duplicate_start_counterexample :
    ∃ room, lookupA (run initState trace5).1.whiteboards "R" = some room ∧
      (lookupA room.activeStrokes (some "s1")).isSome = true ∧
      room.strokes.any (fun st => st.id == some "s1") = true :=
  ⟨⟨"R", "demo", ⟨800, 600⟩, "alice", "t1", ["A"],
    [⟨some "s1", "s1", "A", some [⟨0, 0⟩]⟩],
    [(some "s1", ⟨some "s1", "s1", "A", some [⟨1, 1⟩]⟩)]⟩, rfl, rfl, rfl⟩

/-- C5 (amended): `start_stroke` performs no duplicate check: even when the
payload's id is already present in `activeStrokes` or among the completed
strokes, the stroke is unconditionally (re)bound in `activeStrokes` under
`payload.id`, and the completed strokes are untouched — nothing is rejected
and the two tables are never reconciled. -/
theorem c5_start_stroke_overwrites (fresh now conn uid rid : String)
    (s : ServerState) (ud : UserData) (room : Room) (p : DrawPayload)
    (hga : getUserByWs s conn = some (uid, ud)) (hrid : ud.currentRoomId = some rid)
    (hw : lookupA s.whiteboards rid = some room)
    (hdup : (lookupA room.activeStrokes p.id).isSome = true ∨
            ∃ st ∈ room.strokes, st.id = p.id) :
    ∃ room', lookupA (handleMessage fresh now s conn
        (.start_stroke p)).1.whiteboards rid = some room' ∧
      lookupA room'.activeStrokes p.id = some ⟨p.id, p.strokeId, uid, p.points⟩ ∧
      room'.strokes = room.strokes := by
  simp only [handleMessage, hga, hrid, handleDrawingState, hw]
  exact ⟨_, lookupA_setA_self _ _ _, lookupA_setA_self _ _ _, rfl⟩

/-- The room as it stands after start+end of "s1" (one completed stroke,
no active one). -/
def wroom5 : Room :=
  ⟨"R", "demo", ⟨800, 600⟩, "alice", "t1", ["A"],
   [⟨some "s1", "s1", "A", some [⟨0, 0⟩]⟩], []⟩

def state5pre : ServerState :=
  (run initState (trace7pre ++
    [.recv "f1" "t2" "c1" (.start_stroke ⟨some "s1", "s1", ⟨0, 0⟩, some [⟨0, 0⟩]⟩),
     .recv "f2" "t3" "c1" (.end_stroke ⟨none, "s1", ⟨0, 0⟩, none⟩)])).1

theorem c5_start_stroke_overwrites_witness :
    getUserByWs state5pre "c1" = some ("A", ⟨"alice", "c1", some "R"⟩) ∧
    (UserData.mk "alice" "c1" (some "R")).currentRoomId = some "R" ∧
    lookupA state5pre.whiteboards "R" = some wroom5 ∧
    ((lookupA wroom5.activeStrokes (some "s1")).isSome = true ∨
      ∃ st ∈ wroom5.strokes, st.id = some "s1") ∧
    (∃ room', lookupA (handleMessage "f3" "t4" state5pre "c1"
        (.start_stroke ⟨some "s1", "s1", ⟨1, 1⟩, some [⟨1, 1⟩]⟩)).1.whiteboards "R"
          = some room' ∧
      lookupA room'.activeStrokes (some "s1") =
        some ⟨some "s1", "s1", "A", some [⟨1, 1⟩]⟩ ∧
      room'.strokes = wroom5.strokes) :=
  ⟨rfl, rfl, rfl, Or.inr ⟨⟨some "s1", "s1", "A", some [⟨0, 0⟩]⟩, by decide⟩,
   c5_start_stroke_overwrites "f3" "t4" "c1" "A" "R" state5pre
     ⟨"alice", "c1", some "R"⟩ wroom5 ⟨some "s1", "s1", ⟨1, 1⟩, some [⟨1, 1⟩]⟩
     rfl rfl rfl (Or.inr ⟨⟨some "s1", "s1", "A", some [⟨0, 0⟩]⟩, by decide⟩)⟩

/-- Trace for C4: "A" leaves "R" via a failing join (scheduling a deletion
timer for the now-empty room), rejoins "R" before any timer fires, then
leaves again; then the first timer fires. -/
def trace4 : List Event :=
  trace7pre ++
  [.recv "x" "t2" "c1" (.join_room "zzz"),
   .recv "x" "t3" "c1" (.join_room "R"),
   .recv "x" "t4" "c1" (.join_room "zzz"),
   .timer "R"]

/-- C4 counterexample: a join occurred strictly between the leave that
scheduled the timer and the timer's expiry (`trace4` rejoins "R" at its
fifth event), yet after the timer fires room "R" no longer exists — the
join did not prevent the deletion, because emptiness is only re-checked at
fire time. -/
theorem c4_timer_counterexample :
    (trace4.get? 4 = some (.recv "x" "t3" "c1" (.join_room "R"))) ∧
    lookupA (run initState trace4).1.whiteboards "R" = none :=
  ⟨rfl, rfl⟩

/-- C4 (amended): when a scheduled deletion timer for a room fires, the room
is deleted exactly when its membership is empty at that moment: a room that
is empty at fire time is removed even if it was joined (and re-left) during
the grace period, and a room with any member at fire time survives
unchanged. -/
theorem c4_timer_recheck (s : ServerState) (rid : String) (room : Room)
    (hp : rid ∈ s.pendingTimers) (hw : lookupA s.whiteboards rid = some room) :
    (room.clients = [] → lookupA (fireTimer s rid).1.whiteboards rid = none) ∧
    (room.clients ≠ [] → (fireTimer s rid).1.whiteboards = s.whiteboards) := by
  constructor
  · intro hE
    simp only [fireTimer, if_pos hp, hw, hE, List.isEmpty_nil, if_true]
    exact lookupA_eraseA_self _ _
  · intro hNE
    have hb : room.clients.isEmpty = false := by
      cases hc : room.clients with
      | nil => exact absurd hc hNE
      | cons a t => rfl
    simp [fireTimer, if_pos hp, hw, hb]

/-- State for the C4 witness: after `trace7pre` plus one failing join, room
"R" is empty with one pending deletion timer. -/
def state4pre : ServerState :=
  (run initState (trace7pre ++ [.recv "x" "t2" "c1" (.join_room "zzz")])).1

def wroom4 : Room := ⟨"R", "demo", ⟨800, 600⟩, "alice", "t1", [], [], []⟩

theorem c4_timer_recheck_witness :
    "R" ∈ state4pre.pendingTimers ∧
    lookupA state4pre.whiteboards "R" = some wroom4 ∧
    ((wroom4.clients = [] → lookupA (fireTimer state4pre "R").1.whiteboards "R" = none) ∧
     (wroom4.clients ≠ [] → (fireTimer state4pre "R").1.whiteboards =
        state4pre.whiteboards)) :=
  ⟨by decide, rfl, c4_timer_recheck state4pre "R" wroom4 (by decide) rfl⟩

def state6pre : ServerState :=
  (run initState [.connect "c1", .recv "A" "t0" "c1" (.auth none "alice")]).1

/-- C6 counterexample: when "alice" creates room "R", the `room_list_update`
broadcast to the lobby shows the new room with `userCount = 0`, not 1 — the
broadcast happens before the creator is auto-joined (the final state does
have the creator as the sole member). -/
theorem c6_create_room_counterexample :
    (handleMessage "R" "t1" state6pre "c1" (.create_room "demo" ⟨800, 600⟩)).2 =
      [("c1", Msg.room_list_update [⟨"R", "demo", "alice", "t1", 0⟩]),
       ("c1", Msg.joined_room "R" "demo" ⟨800, 600⟩ [] [] [("A", "alice")])] ∧
    (lookupA (handleMessage "R" "t1" state6pre "c1"
        (.create_room "demo" ⟨800, 600⟩)).1.whiteboards "R").map Room.clients =
      some ["A"] :=
  ⟨rfl, rfl⟩

/-- Leaving a room never adds a room: a room id absent before
`leaveCurrentRoom` is still absent afterwards. -/
theorem leaveCurrentRoom_lookup_none (s : ServerState) (uid k : String)
    (h : lookupA s.whiteboards k = none) :
    lookupA (leaveCurrentRoom s uid).1.whiteboards k = none := by
  cases hu : lookupA s.users uid with
  | none => simpa [leaveCurrentRoom, hu] using h
  | some ud =>
    cases hr : ud.currentRoomId with
    | none => simpa [leaveCurrentRoom, hu, hr] using h
    | some rid =>
      cases hw : lookupA s.whiteboards rid with
      | none => simpa [leaveCurrentRoom, hu, hr, hw] using h
      | some room =>
        have hne : k ≠ rid := by
          intro he
          rw [he, hw] at h
          cases h
        rw [leaveCurrentRoom_spec s uid rid ud room hu hr hw]
        simpa [lookupA_setA_ne _ _ _ _ hne] using h

/-- Every message emitted by `leaveCurrentRoom` is the `user_left`
notification. -/
theorem leaveCurrentRoom_emits_user_left (s : ServerState) (uid : String) :
    ∀ e ∈ (leaveCurrentRoom s uid).2, e.2 = Msg.user_left uid := by
  intro e he
  cases hu : lookupA s.users uid with
  | none => simp [leaveCurrentRoom, hu] at he
  | some ud =>
    cases hr : ud.currentRoomId with
    | none => simp [leaveCurrentRoom, hu, hr] at he
    | some rid =>
      cases hw : lookupA s.whiteboards rid with
      | none => simp [leaveCurrentRoom, hu, hr, hw] at he
      | some room =>
        rw [leaveCurrentRoom_spec s uid rid ud room hu hr hw] at he
        exact (mem_broadcastToRoom he).1

/-- C6 (amended): `create_room` from any authenticated user mints the fresh
room, implicitly joins the creator (the room's member set is exactly the
creator and the creator's `currentRoomId` points at it; a creator already in
a room leaves it first, emitting only `user_left`), and every
`room_list_update` emitted by the step lists the new room with
`userCount = 0` — the lobby broadcast precedes the implicit join. -/
theorem c6_create_room (fresh now conn uid name : String) (size : Size)
    (s : ServerState) (ud : UserData)
    (hga : getUserByWs s conn = some (uid, ud))
    (hfresh : lookupA s.whiteboards fresh = none) :
    lookupA (handleMessage fresh now s conn
        (.create_room name size)).1.whiteboards fresh =
      some ⟨fresh, name, size, ud.username, now, [uid], [], []⟩ ∧
    lookupA (handleMessage fresh now s conn (.create_room name size)).1.users uid =
      some ⟨ud.username, ud.ws, some fresh⟩ ∧
    ∀ (t : String) (L : List RoomSummary),
      (t, Msg.room_list_update L) ∈
        (handleMessage fresh now s conn (.create_room name size)).2 →
      (⟨fresh, name, ud.username, now, 0⟩ : RoomSummary) ∈ L := by
  have husers := getUserByWs_users hga
  have hw1 : lookupA (if ud.currentRoomId.isSome then leaveCurrentRoom s uid
      else (s, [])).1.whiteboards fresh = none := by
    cases hcr : ud.currentRoomId with
    | none => simpa [hcr] using hfresh
    | some rid =>
      simp only [hcr, Option.isSome_some, if_true]
      exact leaveCurrentRoom_lookup_none s uid fresh hfresh
  have hem1 : ∀ e ∈ (if ud.currentRoomId.isSome then leaveCurrentRoom s uid
      else (s, [])).2, e.2 = Msg.user_left uid := by
    cases hcr : ud.currentRoomId with
    | none => simp [hcr]
    | some rid =>
      simp only [hcr, Option.isSome_some, if_true]
      exact leaveCurrentRoom_emits_user_left s uid
  refine ⟨?_, ?_, ?_⟩
  · simp only [handleMessage, hga, handleRoomLogic, husers, lookupA_setA_self]
    simp [addSet]
  · simp only [handleMessage, hga, handleRoomLogic, husers, lookupA_setA_self]
  · intro t L hmem
    simp only [handleMessage, hga, handleRoomLogic, husers, lookupA_setA_self,
      List.append_assoc, List.mem_append, List.mem_singleton] at hmem
    rcases hmem with h1 | h2 | hsnap | h4
    · have := hem1 _ h1
      simp at this
    · have hm := (mem_broadcast h2).1
      simp only at hm
      cases hm
      have hkeys := setA_of_lookup_none
        (if ud.currentRoomId.isSome then leaveCurrentRoom s uid else (s, [])).1.whiteboards
        fresh ⟨fresh, name, size, ud.username, now, [], [], []⟩ hw1
      simp [getWhiteboardList, hkeys]
    · simp [Prod.ext_iff] at hsnap
    · have hm := (mem_broadcastToRoom h4).1
      simp only at hm
      cases hm

theorem c6_create_room_witness :
    getUserByWs state6pre "c1" = some ("A", ⟨"alice", "c1", none⟩) ∧
    lookupA state6pre.whiteboards "R" = none ∧
    (lookupA (handleMessage "R" "t1" state6pre "c1"
        (.create_room "demo" ⟨800, 600⟩)).1.whiteboards "R" =
      some ⟨"R", "demo", ⟨800, 600⟩, "alice", "t1", ["A"], [], []⟩ ∧
    lookupA (handleMessage "R" "t1" state6pre "c1"
        (.create_room "demo" ⟨800, 600⟩)).1.users "A" =
      some ⟨"alice", "c1", some "R"⟩ ∧
    ∀ (t : String) (L : List RoomSummary),
      (t, Msg.room_list_update L) ∈
        (handleMessage "R" "t1" state6pre "c1" (.create_room "demo" ⟨800, 600⟩)).2 →
      (⟨"R", "demo", "alice", "t1", 0⟩ : RoomSummary) ∈ L) :=
  ⟨rfl, rfl,
   c6_create_room "R" "t1" "c1" "A" "demo" ⟨800, 600⟩ state6pre
     ⟨"alice", "c1", none⟩ rfl rfl⟩

/-- A room with one `activeStrokes` binding updated (`Map.set`). -/
def withActive (room : Room) (k : Option String) (st : Stroke) : Room :=
  { room with activeStrokes := setA room.activeStrokes k st }

/-- A room after `end_stroke`: the stroke appended to the completed log and
its `activeStrokes` binding deleted. -/
def withCompleted (room : Room) (k : Option String) (st : Stroke) : Room :=
  { room with
    strokes := room.strokes ++ [st],
    activeStrokes := eraseA room.activeStrokes k }

/-- Invariant of the `draw_chunk` fold for the later iteration's drawing
state: each chunk carrying the stroke id appends its point to the active
stroke and leaves the completed strokes unchanged. -/
theorem c2_draw_fold (uid rid sid : String) (pid : Option String)
    (cs : List DrawPayload) :
    ∀ (s : ServerState) (room : Room) (acc : List Point),
      (∀ c ∈ cs, c.strokeId = sid) →
      lookupA s.whiteboards rid = some room →
      lookupA room.activeStrokes (some sid) = some ⟨pid, sid, uid, some acc⟩ →
      ∃ room',
        lookupA ((cs.foldl
            (fun t c => handleDrawingStateV3 t uid rid (.draw_chunk c)) s)).whiteboards
            rid = some room' ∧
        lookupA room'.activeStrokes (some sid) =
          some ⟨pid, sid, uid, some (acc ++ cs.map (fun c => c.point))⟩ ∧
        room'.strokes = room.strokes := by
  induction cs with
  | nil =>
    intro s room acc hcs hw hact
    exact ⟨room, hw, by simpa using hact, rfl⟩
  | cons c cs ih =>
    intro s room acc hcs hw hact
    have hc : c.strokeId = sid := hcs c (List.mem_cons_self c cs)
    rw [List.foldl_cons]
    have hw' : lookupA (handleDrawingStateV3 s uid rid (.draw_chunk c)).whiteboards rid
        = some (withActive room (some sid) ⟨pid, sid, uid, some (acc ++ [c.point])⟩) := by
      simp only [handleDrawingStateV3, hw, hc, hact, withActive]
      exact lookupA_setA_self _ _ _
    obtain ⟨room', h1, h2, h3⟩ :=
      ih (handleDrawingStateV3 s uid rid (.draw_chunk c))
        (withActive room (some sid) ⟨pid, sid, uid, some (acc ++ [c.point])⟩)
        (acc ++ [c.point])
        (fun c' hc' => hcs c' (List.mem_cons_of_mem c hc'))
        hw' (lookupA_setA_self _ _ _)
    refine ⟨room', h1, ?_, h3⟩
    simpa [List.append_assoc] using h2

/-- C2: for the later iteration's `handleDrawingState` (the one whose
`start_stroke` initialises `points: [payload.point]`), processing
`start_stroke(sid)` then `N` `draw_chunk(sid, p_i)` then `end_stroke(sid)`
from a member of an existing room yields exactly one completed stroke with
that id, whose points are the initial point followed by the chunk points in
call order (`N + 1` points). -/
theorem c2_stroke_lifecycle (uid rid sid : String) (s : ServerState) (room : Room)
    (pid eid : Option String) (p0 ept : Point) (pts0 epts : Option (List Point))
    (cs : List DrawPayload)
    (hw : lookupA s.whiteboards rid = some room)
    (hfresh : ∀ st ∈ room.strokes, st.strokeId ≠ sid)
    (hcs : ∀ c ∈ cs, c.strokeId = sid) :
    ∃ room',
      lookupA (handleDrawingStateV3
          (cs.foldl (fun t c => handleDrawingStateV3 t uid rid (.draw_chunk c))
            (handleDrawingStateV3 s uid rid (.start_stroke ⟨pid, sid, p0, pts0⟩)))
          uid rid (.end_stroke ⟨eid, sid, ept, epts⟩)).whiteboards rid = some room' ∧
      room'.strokes.filter (fun st => st.strokeId == sid) =
        [⟨pid, sid, uid, some (p0 :: cs.map (fun c => c.point))⟩] := by
  have hw1 : lookupA (handleDrawingStateV3 s uid rid
        (.start_stroke ⟨pid, sid, p0, pts0⟩)).whiteboards rid
      = some (withActive room (some sid) ⟨pid, sid, uid, some [p0]⟩) := by
    simp only [handleDrawingStateV3, hw, withActive]
    exact lookupA_setA_self _ _ _
  obtain ⟨room2, h1, h2, h3⟩ :=
    c2_draw_fold uid rid sid pid cs _ _ [p0] hcs hw1 (lookupA_setA_self _ _ _)
  have hend : lookupA (handleDrawingStateV3
        (cs.foldl (fun t c => handleDrawingStateV3 t uid rid (.draw_chunk c))
          (handleDrawingStateV3 s uid rid (.start_stroke ⟨pid, sid, p0, pts0⟩)))
        uid rid (.end_stroke ⟨eid, sid, ept, epts⟩)).whiteboards rid
      = some (withCompleted room2 (some sid)
          ⟨pid, sid, uid, some ([p0] ++ cs.map (fun c => c.point))⟩) := by
    set s2 := cs.foldl (fun t c => handleDrawingStateV3 t uid rid (.draw_chunk c))
      (handleDrawingStateV3 s uid rid (.start_stroke ⟨pid, sid, p0, pts0⟩)) with hs2
    simp only [handleDrawingStateV3, h1, h2, withCompleted]
    exact lookupA_setA_self _ _ _
  refine ⟨_, hend, ?_⟩
  have h3' : room2.strokes = room.strokes := by simpa [withActive] using h3
  have hsel : room2.strokes.filter (fun st => st.strokeId == sid) = [] := by
    rw [List.filter_eq_nil_iff]
    intro st hst
    have := hfresh st (h3' ▸ hst)
    simpa using this
  simp [withCompleted, List.filter_append, hsel]

def wroom2 : Room := ⟨"R", "demo", ⟨800, 600⟩, "alice", "t", ["A"], [], []⟩

def wstate2 : ServerState :=
  ⟨[("A", ⟨"alice", "ca", some "R"⟩)], [("R", wroom2)], [("ca", "A")], ["ca"], []⟩

/-- The two `draw_chunk` payloads of the C2 witness run. -/
def wcs2 : List DrawPayload := [⟨none, "s", ⟨1, 1⟩, none⟩, ⟨none, "s", ⟨2, 2⟩, none⟩]

theorem c2_stroke_lifecycle_witness :
    lookupA wstate2.whiteboards "R" = some wroom2 ∧
    (∀ st ∈ wroom2.strokes, st.strokeId ≠ "s") ∧
    (∀ c ∈ wcs2, c.strokeId = "s") ∧
    (∃ room',
      lookupA (handleDrawingStateV3
          (wcs2.foldl
            (fun t c => handleDrawingStateV3 t "A" "R" (.draw_chunk c))
            (handleDrawingStateV3 wstate2 "A" "R"
              (.start_stroke ⟨none, "s", ⟨0, 0⟩, none⟩)))
          "A" "R" (.end_stroke ⟨none, "s", ⟨9, 9⟩, none⟩)).whiteboards "R" = some room' ∧
      room'.strokes.filter (fun st => st.strokeId == "s") =
        [⟨none, "s", "A", some (Point.mk 0 0 :: wcs2.map (fun c => c.point))⟩]) :=
  ⟨rfl, by decide, by decide,
   c2_stroke_lifecycle "A" "R" "s" wstate2 wroom2 none none ⟨0, 0⟩ ⟨9, 9⟩ none none
     wcs2 rfl (by decide) (by decide)⟩

end Drawlima
